import Mathlib

/-!
Verification of the Excel/CSV automation tool's data-processing pipeline
(`app.py`): loading dispatch, merge with provenance tagging, column-wise
cleaning, duplicate removal, per-column summaries, and the orchestrated
`process_and_report` run with its progress events and output writes.

Tables are modelled as named columns of cells; a cell is a text value, a
numeric value (a rational, standing for the float the library would hold),
or a missing marker (NaN). Column dtypes are inferred from the values the
way the library infers them for data read from CSV/spreadsheet files: a
column holding any text value is an object column, a non-empty column of
numbers and missing markers is numeric. Filesystem effects are recorded in
an explicit trace (directories created, files written) instead of being
performed.
-/

namespace ExcelTool

/-! ## Generic list helpers -/

/-- Keep-first duplicate removal with an accumulator of already-seen
elements; `dedupAux seen l` drops every element of `l` that equals an
earlier element or a member of `seen`. -/
def dedupAux {α : Type} [DecidableEq α] (seen : List α) : List α → List α
  | [] => []
  | x :: xs => if x ∈ seen then dedupAux seen xs else x :: dedupAux (x :: seen) xs

/-- Keep-first duplicate removal, as `DataFrame.drop_duplicates()` does it:
a row is dropped exactly when it equals an earlier row. -/
def dedupKeepFirst {α : Type} [DecidableEq α] (l : List α) : List α :=
  dedupAux [] l

/-- Index of the first occurrence of `a` in the list (list length if absent). -/
def firstIdx {α : Type} [DecidableEq α] (a : α) : List α → Nat
  | [] => 0
  | x :: xs => if x = a then 0 else 1 + firstIdx a xs

theorem dedupAux_sublist {α : Type} [DecidableEq α] (seen : List α) (l : List α) :
    (dedupAux seen l).Sublist l := by
  induction l generalizing seen with
  | nil => simp [dedupAux]
  | cons x xs ih =>
    by_cases h : x ∈ seen
    · simp only [dedupAux, if_pos h]
      exact (ih seen).cons x
    · simp only [dedupAux, if_neg h]
      exact (ih (x :: seen)).cons₂ x

theorem mem_dedupAux {α : Type} [DecidableEq α] {seen : List α} {l : List α} {a : α} :
    a ∈ dedupAux seen l ↔ a ∈ l ∧ a ∉ seen := by
  induction l generalizing seen with
  | nil => simp [dedupAux]
  | cons x xs ih =>
    by_cases h : x ∈ seen
    · simp only [dedupAux, if_pos h, ih, List.mem_cons]
      constructor
      · rintro ⟨ha, hs⟩; exact ⟨Or.inr ha, hs⟩
      · rintro ⟨ha | ha, hs⟩
        · exact absurd (ha ▸ h) hs
        · exact ⟨ha, hs⟩
    · simp only [dedupAux, if_neg h, List.mem_cons, ih]
      by_cases hax : a = x
      · subst hax; simp [h]
      · simp [hax]

theorem dedupAux_nodup {α : Type} [DecidableEq α] (seen : List α) (l : List α) :
    (dedupAux seen l).Nodup := by
  induction l generalizing seen with
  | nil => simp [dedupAux]
  | cons x xs ih =>
    by_cases h : x ∈ seen
    · simpa [dedupAux, if_pos h] using ih seen
    · simp only [dedupAux, if_neg h, List.nodup_cons]
      refine ⟨fun hc => ?_, ih (x :: seen)⟩
      exact (mem_dedupAux.mp hc).2 (List.mem_cons_self x seen)

theorem firstIdx_dedupAux {α : Type} [DecidableEq α] (seen : List α) (l : List α)
    (a b : α) (ha : a ∈ l) (hb : b ∈ l) (hsa : a ∉ seen) (hsb : b ∉ seen) :
    (firstIdx a (dedupAux seen l) ≤ firstIdx b (dedupAux seen l) ↔
      firstIdx a l ≤ firstIdx b l) := by
  induction l generalizing seen with
  | nil => simp at ha
  | cons x xs ih =>
    by_cases h : x ∈ seen
    · have hax : a ≠ x := fun hc => hsa (hc ▸ h)
      have hbx : b ≠ x := fun hc => hsb (hc ▸ h)
      have ha' : a ∈ xs := by
        rcases List.mem_cons.mp ha with h1 | h1
        · exact absurd h1 hax
        · exact h1
      have hb' : b ∈ xs := by
        rcases List.mem_cons.mp hb with h1 | h1
        · exact absurd h1 hbx
        · exact h1
      rw [dedupAux, if_pos h]
      have := ih seen ha' hb' hsa hsb
      simp only [firstIdx, if_neg (fun hc : x = a => hax hc.symm),
        if_neg (fun hc : x = b => hbx hc.symm)]
      omega
    · rw [dedupAux, if_neg h]
      by_cases hxa : x = a
      · subst hxa
        simp [firstIdx]
      · by_cases hxb : x = b
        · have h1 : firstIdx b (x :: dedupAux (x :: seen) xs) = 0 := by
            simp [firstIdx, hxb]
          have h2 : firstIdx b (x :: xs) = 0 := by simp [firstIdx, hxb]
          have h3 : firstIdx a (x :: dedupAux (x :: seen) xs) =
              1 + firstIdx a (dedupAux (x :: seen) xs) := by simp [firstIdx, hxa]
          have h4 : firstIdx a (x :: xs) = 1 + firstIdx a xs := by
            simp [firstIdx, hxa]
          rw [h1, h2, h3, h4]
          omega
        · have ha' : a ∈ xs := by
            rcases List.mem_cons.mp ha with h1 | h1
            · exact absurd h1.symm hxa
            · exact h1
          have hb' : b ∈ xs := by
            rcases List.mem_cons.mp hb with h1 | h1
            · exact absurd h1.symm hxb
            · exact h1
          have hsa' : a ∉ x :: seen := by
            simp only [List.mem_cons, not_or]
            exact ⟨fun hc => hxa hc.symm, hsa⟩
          have hsb' : b ∉ x :: seen := by
            simp only [List.mem_cons, not_or]
            exact ⟨fun hc => hxb hc.symm, hsb⟩
          have := ih (x :: seen) ha' hb' hsa' hsb'
          simp only [firstIdx, if_neg hxa, if_neg hxb]
          omega

theorem dedupKeepFirst_sublist {α : Type} [DecidableEq α] (l : List α) :
    (dedupKeepFirst l).Sublist l := dedupAux_sublist [] l

theorem mem_dedupKeepFirst {α : Type} [DecidableEq α] {l : List α} {a : α} :
    a ∈ dedupKeepFirst l ↔ a ∈ l := by
  simp [dedupKeepFirst, mem_dedupAux]

theorem dedupKeepFirst_nodup {α : Type} [DecidableEq α] (l : List α) :
    (dedupKeepFirst l).Nodup := dedupAux_nodup [] l

theorem firstIdx_dedupKeepFirst {α : Type} [DecidableEq α] (l : List α)
    (a b : α) (ha : a ∈ l) (hb : b ∈ l) :
    (firstIdx a (dedupKeepFirst l) ≤ firstIdx b (dedupKeepFirst l) ↔
      firstIdx a l ≤ firstIdx b l) :=
  firstIdx_dedupAux [] l a b ha hb (by simp) (by simp)

/-! ## Python string helpers: `str.strip()`, `str.lower()`, lexicographic order -/

/-- The whitespace predicate used by `str.strip()` (modelled on the ASCII
whitespace characters). -/
def wsChar (c : Char) : Bool := c.isWhitespace

/-- Python `str.strip()` on a list of characters: drop whitespace from the front,
then from the back. -/
def pyStripList (l : List Char) : List Char :=
  ((l.dropWhile wsChar).reverse.dropWhile wsChar).reverse

/-- Python `str.strip()`. -/
def pyStrip (s : String) : String := ⟨pyStripList s.data⟩

/-- Python `str.lower()` (ASCII lowering, as `Char.toLower`). -/
def pyLower (s : String) : String := ⟨s.data.map Char.toLower⟩

/-- Lexicographic order on character lists by code point, as Python compares
strings; used only to model the sorted order of `Series.mode()`. -/
def charListLt : List Char → List Char → Bool
  | [], [] => false
  | [], _ :: _ => true
  | _ :: _, [] => false
  | a :: as, b :: bs =>
    if a.toNat < b.toNat then true
    else if b.toNat < a.toNat then false
    else charListLt as bs

/-- String comparison by code points. -/
def strLtB (a b : String) : Bool := charListLt a.data b.data

theorem dropWhile_dropWhile_self {α : Type} (p : α → Bool) (l : List α) :
    (l.dropWhile p).dropWhile p = l.dropWhile p := by
  induction l with
  | nil => simp
  | cons x xs ih =>
    by_cases h : p x
    · simpa [List.dropWhile_cons, h] using ih
    · simp [List.dropWhile_cons, h]

theorem head?_dropWhile_not {α : Type} (p : α → Bool) (l : List α) {a : α}
    (h : (l.dropWhile p).head? = some a) : p a = false := by
  induction l with
  | nil => simp at h
  | cons x xs ih =>
    by_cases hx : p x
    · exact ih (by simpa [List.dropWhile_cons, hx] using h)
    · simp only [List.dropWhile_cons, hx, Bool.false_eq_true, if_false,
        List.head?_cons, Option.some.injEq] at h
      subst h
      simpa using hx

theorem dropWhile_eq_self_of_head {α : Type} (p : α → Bool) (l : List α)
    (h : ∀ a, l.head? = some a → p a = false) : l.dropWhile p = l := by
  cases l with
  | nil => simp
  | cons x xs => simp [List.dropWhile_cons, h x rfl]

theorem pyStripList_idem (l : List Char) :
    pyStripList (pyStripList l) = pyStripList l := by
  set front := l.dropWhile wsChar with hf
  have key : (pyStripList l).dropWhile wsChar = pyStripList l := by
    apply dropWhile_eq_self_of_head
    intro a ha
    rw [pyStripList, List.head?_reverse] at ha
    obtain ⟨ys, hys⟩ := List.getLast?_eq_some_iff.mp ha
    obtain ⟨s, hs⟩ := List.dropWhile_suffix (l := front.reverse) wsChar
    have hlast : front.reverse.getLast? = some a := by
      rw [← hs, hys, ← List.append_assoc, List.getLast?_concat]
    rw [List.getLast?_reverse] at hlast
    exact head?_dropWhile_not wsChar l hlast
  rw [pyStripList, key]
  show ((front.reverse.dropWhile wsChar).reverse.reverse.dropWhile wsChar).reverse
      = pyStripList l
  rw [List.reverse_reverse, dropWhile_dropWhile_self, pyStripList]

theorem pyStrip_idem (s : String) : pyStrip (pyStrip s) = pyStrip s := by
  show (⟨pyStripList (pyStripList s.data)⟩ : String) = ⟨pyStripList s.data⟩
  rw [pyStripList_idem]

/-! ## Data model: cells, columns, tables -/

/-- A cell of a table: a text value, a numeric value (a rational standing
for the float the library would hold), or the missing marker NaN. -/
inductive Cell where
  | str (s : String)
  | num (q : Rat)
  | na
deriving DecidableEq, Repr

def Cell.isStr : Cell → Bool
  | .str _ => true
  | _ => false

/-- A named column of cells. -/
structure Column where
  name : String
  values : List Cell
deriving DecidableEq, Repr

/-- A table (DataFrame): an ordered list of named columns. All columns of a
table produced by the pipeline have the same length. -/
structure Table where
  cols : List Column
deriving DecidableEq, Repr

/-- Number of rows: the length of the first column (0 for a table with no
columns), as `len(df)` reports for the tables this pipeline builds. -/
def Table.nrows (t : Table) : Nat := (t.cols.head?.map (·.values.length)).getD 0

/-- The column names, in order. -/
def Table.names (t : Table) : List String := t.cols.map (·.name)

/-- First column with the given name, if any. -/
def Table.getCol (t : Table) (n : String) : Option Column :=
  t.cols.find? (fun c => decide (c.name = n))

/-- Pandas `DataFrame.empty`: true when the table has no rows or no columns. -/
def Table.isEmpty (t : Table) : Bool := t.cols.isEmpty || t.nrows == 0

/-- The rows of the table: row `i` holds the `i`-th value of every column,
in column order. -/
def Table.rows (t : Table) : List (List Cell) :=
  (List.range t.nrows).map (fun i => t.cols.map (fun c => c.values.getD i Cell.na))

/-- Rebuild a table from a list of column names and a list of rows. -/
def Table.fromRows (names : List String) (rs : List (List Cell)) : Table :=
  ⟨(List.range names.length).map
    (fun j => ⟨names.getD j "", rs.map (fun r => r.getD j Cell.na)⟩)⟩

/-- Pandas `is_numeric_dtype`, for values originating from
CSV/spreadsheet parsing and this pipeline's transformations: a non-empty
column holding only numbers and missing markers is numeric (an all-NaN
parsed column is float64); any column holding a text value, and the empty
column, have object dtype. -/
def isNumericValues (vs : List Cell) : Bool :=
  !vs.isEmpty && vs.all (fun c => !c.isStr)

/-- Pandas `is_object_dtype` under the same inference. -/
def isObjectValues (vs : List Cell) : Bool := !isNumericValues vs

/-! ## Loader (`load_file`) -/

/-- The suffix test `path.lower().endswith(".csv")`: the last four
characters of the lowered path are `.csv`. -/
def endsWithCsv (s : String) : Bool :=
  decide (s.data.drop (s.data.length - 4) = ".csv".data)

/-- Model of `load_file(path)`: dispatch purely on the case-insensitive extension.
`read_csv`/`read_excel` are the library parsers, taken as parameters; their
result (table or failure) is returned unchanged — `load_file` catches
nothing. -/
def load_file (read_csv read_excel : String → Except String Table)
    (path : String) : Except String Table :=
  if endsWithCsv (pyLower path) then read_csv path else read_excel path

/-! ## Cleaner (`clean_df`) -/

/-- Pandas `fillna("")` on one cell. -/
def fillnaEmptyText (c : Cell) : Cell :=
  match c with
  | .na => .str ""
  | c => c

/-- Pandas `astype(str)` on one cell: text is unchanged, numbers are rendered by
`str()` (the exact float formatting is irrelevant to every claim), and a
missing marker becomes the literal string "nan", as pandas stringifies NaN. -/
def cellAstypeStr : Cell → String
  | .str s => s
  | .num q => toString q
  | .na => "nan"

/-- Pandas `pd.to_numeric(·, errors='coerce')` on one cell. Numbers and NaN pass
through; a text cell parses as a number or coerces to NaN. (Numeric-dtype
columns contain no text cells, so the text case is never exercised by
`clean_df` or the summarizer; a simple digit-string parse stands in for the
library's full parser.) -/
def toNumericCoerce : Cell → Cell
  | .num q => .num q
  | .na => .na
  | .str s =>
    match s.toNat? with
    | some n => .num n
    | none => .na

/-- Pandas `fillna(0)` on one cell. -/
def fillnaZero (c : Cell) : Cell :=
  match c with
  | .na => .num 0
  | c => c

/-- The object-column transformation of `clean_df`:
`fillna("").astype(str).str.strip()`. -/
def cleanObjectCell (c : Cell) : Cell :=
  .str (pyStrip (cellAstypeStr (fillnaEmptyText c)))

/-- The value transformation `clean_df` applies to one column: trim text
columns, coerce-and-zero-fill numeric columns, fill missing values of any
other column with empty text. (The per-column `except` fallback never
fires: none of these operations raises.) -/
def cleanValues (vs : List Cell) : List Cell :=
  if isObjectValues vs then vs.map cleanObjectCell
  else if isNumericValues vs then vs.map (fun v => fillnaZero (toNumericCoerce v))
  else vs.map fillnaEmptyText

/-- One column of `clean_df`. -/
def cleanColumn (c : Column) : Column := { c with values := cleanValues c.values }

/-- Model of `clean_df`: clean every column, in column order. -/
def clean_df (t : Table) : Table := ⟨t.cols.map cleanColumn⟩

/-- The progress events `clean_df` hands to its callback:
`(int(i/total*100), "Cleaning columns: i/total")` for `i = 1..ncols`, with
`total = max(1, ncols)`. -/
def cleanProgress (ncols : Nat) : List (Nat × String) :=
  (List.range' 1 ncols).map
    (fun i => (i * 100 / max 1 ncols,
      "Cleaning columns: " ++ toString i ++ "/" ++ toString (max 1 ncols)))

/-! ## Merger (`merge_and_tag`) -/

/-- Python `os.path.basename`: the part of the path after the last slash. -/
def basename (p : String) : String :=
  ⟨(p.data.reverse.takeWhile (fun c => decide (c ≠ '/'))).reverse⟩

/-- Pandas `df[name] = v` with a scalar: overwrite the column in place if present,
otherwise append it. -/
def setColumnConst (t : Table) (n : String) (v : Cell) : Table :=
  if n ∈ t.names then
    ⟨t.cols.map (fun c =>
      if c.name = n then { c with values := List.replicate t.nrows v } else c)⟩
  else
    ⟨t.cols ++ [⟨n, List.replicate t.nrows v⟩]⟩

/-- Tag a loaded table with its originating file:
`df['Source_File'] = os.path.basename(f)`. -/
def tagTable (f : String) (t : Table) : Table :=
  setColumnConst t "Source_File" (.str (basename f))

/-- Pandas `pd.concat(dfs, ignore_index=True)`: columns are the union of the
input columns in order of first appearance; each output column is the
concatenation of that column's values per input, with NaN for inputs that
lack the column. -/
def concatTables (ts : List Table) : Table :=
  let ns := dedupKeepFirst (ts.flatMap Table.names)
  ⟨ns.map (fun n =>
    ⟨n, ts.flatMap (fun t =>
      match t.getCol n with
      | some c => c.values
      | none => List.replicate t.nrows Cell.na)⟩)⟩

/-- Model of `merge_and_tag(files)`: load each file (a failed load is logged and
skipped), tag rows with the source file's base name, and concatenate.
Returns the empty table and no read files when nothing was readable. The
loader is abstracted as a partial map from paths to tables. -/
def merge_and_tag (load : String → Option Table) (files : List String) :
    Table × List String :=
  let dfs := files.filterMap (fun f => (load f).map (tagTable f))
  if dfs.isEmpty then (⟨[]⟩, [])
  else (concatTables dfs,
    files.filterMap (fun f => (load f).map (fun _ => basename f)))

/-- The progress events `merge_and_tag` hands to its callback:
`(int(idx/total*100), "Loaded idx/total files")` for `idx = 1..nfiles`,
with `total = max(1, nfiles)`, emitted whether or not the file loaded. -/
def mergeProgress (nfiles : Nat) : List (Nat × String) :=
  (List.range' 1 nfiles).map
    (fun idx => (idx * 100 / max 1 nfiles,
      "Loaded " ++ toString idx ++ "/" ++ toString (max 1 nfiles) ++ " files"))

/-! ## Deduplicator (`remove_duplicates`) -/

/-- Model of `remove_duplicates(df)`: `df.drop_duplicates()` (keep the first of any
group of identical rows) plus the count of removed rows. -/
def remove_duplicates (t : Table) : Table × Nat :=
  let rs := t.rows
  let rs2 := dedupKeepFirst rs
  (Table.fromRows t.names rs2, rs.length - rs2.length)

/-! ## Summarizer (`generate_column_summary`) -/

/-- One per-column summary record. The `unknown` record is what the
`except` branch would produce; no operation of the model raises, so it is
never built. -/
inductive ColSummary where
  | numeric (count : Nat) (sum mean mn mx : Rat)
  | text (count unique : Nat) (most_common : String)
  | unknown (error : String)
deriving DecidableEq, Repr

/-- `to_numeric(·, coerce).fillna(0)` on one cell, as a rational. -/
def cellToNumFilled (c : Cell) : Rat :=
  match toNumericCoerce c with
  | .num q => q
  | _ => 0

/-- Pandas `Series.min()` over the non-missing values (all of them, after the
zero-fill); the empty case would be NaN and is never summarized by a claim. -/
def listMinR : List Rat → Rat
  | [] => 0
  | x :: xs => xs.foldl min x

/-- Pandas `Series.max()`, as `listMinR`. -/
def listMaxR : List Rat → Rat
  | [] => 0
  | x :: xs => xs.foldl max x

/-- Pandas `s.mode().iloc[0] if not s.mode().empty else ""`: the smallest (by code
points, as the mode result is sorted) among the most frequent values, or
the empty string for an empty series. -/
def modeMin (ss : List String) : String :=
  let ds := dedupKeepFirst ss
  let m := (ds.map (fun v => ss.count v)).foldl Nat.max 0
  match ds.filter (fun v => decide (ss.count v = m)) with
  | [] => ""
  | x :: xs => xs.foldl (fun a b => if strLtB b a then b else a) x

/-- Summarize one column, following `generate_column_summary`'s branches:
numeric dtype → coerce, zero-fill, count/sum/mean/min/max (`count()` runs
after `fillna(0)`, so it counts every row); otherwise → `astype(str)` (NaN
becomes "nan"), then a vacuous `fillna("")`, count, distinct count, mode. -/
def summarizeColumn (c : Column) : ColSummary :=
  if isNumericValues c.values then
    let qs := c.values.map cellToNumFilled
    .numeric qs.length qs.sum (qs.sum / (qs.length : Rat))
      (listMinR qs) (listMaxR qs)
  else
    let ss := c.values.map cellAstypeStr
    .text ss.length (dedupKeepFirst ss).length (modeMin ss)

/-- Model of `generate_column_summary(df)`: the per-column summary records, keyed by
column name in column order. -/
def generate_column_summary (t : Table) : List (String × ColSummary) :=
  t.cols.map (fun c => (c.name, summarizeColumn c))

/-! ## Pipeline orchestrator (`process_and_report`) -/

/-- The bundle returned by a successful run (the parts with data content;
the returned paths are recorded in the trace). -/
structure RunBundle where
  rows : Nat
  duplicates_removed : Nat
  read_files : List String
deriving DecidableEq, Repr

/-- Outcome of a run: the returned bundle, or the message of the raised
`ValueError`. -/
inductive RunResult where
  | ok (b : RunBundle)
  | error (msg : String)
deriving DecidableEq, Repr

/-- Everything one call of `process_and_report` does to the outside world:
the progress events sent to the callback (in order), the directories
created, the workbook files written with their table content, the chart and
report files written, and the outcome. -/
structure RunTrace where
  events : List (Nat × String)
  dirs : List String
  excels : List (String × Table)
  charts : List String
  pdfs : List String
  result : RunResult
deriving DecidableEq, Repr

/-- The merge-stage events as forwarded by `process_and_report`'s lambda:
`5 + int(p * 0.1)`. -/
def mergeEvents (nfiles : Nat) : List (Nat × String) :=
  (mergeProgress nfiles).map (fun e => (5 + e.1 / 10, e.2))

/-- The clean-stage events as forwarded: `30 + int(p * 0.2)`. -/
def cleanEvents (ncols : Nat) : List (Nat × String) :=
  (cleanProgress ncols).map (fun e => (30 + e.1 / 5, e.2))

/-- The full event stream of a successful run, in program order: the fixed
checkpoints interleaved with the forwarded merge and clean events; the
88% event appears only when a first non-numeric column exists (its name is
`topCol`). The last emitted event is `(99, "Finalizing")` — the function
itself never emits 100. -/
def successEvents (nfiles ncols removed : Nat) (topCol : Option String) :
    List (Nat × String) :=
  (5, "Starting: loading files") :: mergeEvents nfiles
    ++ [(25, "Files loaded; merging complete"), (30, "Cleaning data")]
    ++ cleanEvents ncols
    ++ [(55, "Cleaning complete"), (60, "Removing duplicates"),
        (70, "Duplicates removed: " ++ toString removed),
        (75, "Saving output files"),
        (80, "Generating summaries"), (85, "Creating chart: summary")]
    ++ (match topCol with
        | some cn => [(88, "Creating chart: top values (" ++ cn ++ ")")]
        | none => [])
    ++ [(92, "Building PDF report"), (99, "Finalizing")]

/-- Model of `process_and_report(files, progress_callback)`. The loader oracle
plays the role of `load_file` (a `none` is a load that raised); `runName`
is the timestamped run-folder name and `tstamp` the file-name timestamp.
The trace records events, directory creations, file writes and the
outcome in program order. -/
def process_and_report (load : String → Option Table)
    (runName tstamp : String) (files : List String) : RunTrace :=
  if files.isEmpty then
    ⟨[], [], [], [], [], .error "No files provided."⟩
  else
    let dirs := ["output", "output/" ++ runName]
    let m := merge_and_tag load files
    let evHead := (5, "Starting: loading files") :: mergeEvents files.length
    if m.1.isEmpty then
      ⟨evHead, dirs, [], [], [],
        .error "No readable data found in the provided files."⟩
    else
      let cleaned := clean_df m.1
      let dd := remove_duplicates cleaned
      let textCols := dd.1.cols.filter (fun c => !isNumericValues c.values)
      ⟨successEvents files.length m.1.cols.length dd.2
        (textCols.head?.map (fun c => c.name)),
       dirs,
       [("merged_output_" ++ tstamp ++ ".xlsx", dd.1),
        ("cleaned_output_" ++ tstamp ++ ".xlsx", dd.1)],
       ("chart_summary_" ++ tstamp ++ ".png") ::
         (match textCols.head? with
          | some _ => ["chart_top_values_" ++ tstamp ++ ".png"]
          | none => []),
       ["summary_report_" ++ tstamp ++ ".pdf"],
       .ok ⟨dd.1.nrows, dd.2, m.2⟩⟩

/-! ## The two-CSV scenario of the spec's test properties -/

/-- Table parsed from `a.csv`: columns `[Name, Score]`, rows `["Al",10]` and `["Bo",20]`. -/
def tableA : Table :=
  ⟨[⟨"Name", [.str "Al", .str "Bo"]⟩, ⟨"Score", [.num 10, .num 20]⟩]⟩

/-- Table parsed from `b.csv`: same columns, the duplicate row `["Al",10]` and `["Cy",30]`. -/
def tableB : Table :=
  ⟨[⟨"Name", [.str "Al", .str "Cy"]⟩, ⟨"Score", [.num 10, .num 30]⟩]⟩

/-- Loader oracle of the scenario: both files parse. -/
def scenarioLoad : String → Option Table := fun f =>
  if f = "a.csv" then some tableA
  else if f = "b.csv" then some tableB
  else none

/-- The scenario's merged-and-tagged table. -/
def scenarioMerged : Table × List String :=
  merge_and_tag scenarioLoad ["a.csv", "b.csv"]

/-- The scenario's final (cleaned, deduplicated) table with removal count. -/
def scenarioFinal : Table × Nat := remove_duplicates (clean_df scenarioMerged.1)

/-! ## Table/rows roundtrip lemmas -/

theorem map_range_getD {α : Type} (l : List α) (d : α) :
    (List.range l.length).map (fun j => l.getD j d) = l := by
  induction l with
  | nil => simp
  | cons x xs ih =>
    simp only [List.length_cons, List.range_succ_eq_map, List.map_cons,
      List.getD_cons_zero, List.map_map, Function.comp_def, List.getD_cons_succ, ih]

theorem rows_length (t : Table) : t.rows.length = t.nrows := by
  simp [Table.rows]

theorem row_mem_length (t : Table) : ∀ r ∈ t.rows, r.length = t.cols.length := by
  intro r hr
  simp only [Table.rows, List.mem_map, List.mem_range] at hr
  obtain ⟨i, _, rfl⟩ := hr
  simp

theorem fromRows_nrows (names : List String) (rs : List (List Cell))
    (h : names ≠ []) : (Table.fromRows names rs).nrows = rs.length := by
  cases names with
  | nil => exact absurd rfl h
  | cons n ns =>
    simp [Table.fromRows, Table.nrows, List.length_cons, List.range_succ_eq_map]

theorem rows_fromRows (names : List String) (rs : List (List Cell))
    (hn : names ≠ []) (hlen : ∀ r ∈ rs, r.length = names.length) :
    (Table.fromRows names rs).rows = rs := by
  have hnr : (Table.fromRows names rs).nrows = rs.length := fromRows_nrows names rs hn
  rw [Table.rows, hnr]
  apply List.ext_get (by simp)
  intro i h1 h2
  have hi : i < rs.length := h2
  rw [List.get_map, List.get_range]
  show (Table.fromRows names rs).cols.map (fun c => c.values.getD i Cell.na)
      = rs.get ⟨i, hi⟩
  rw [Table.fromRows, List.map_map]
  have hcell : ∀ j, ((fun c : Column => c.values.getD i Cell.na) ∘
      (fun j => (⟨names.getD j "", rs.map (fun r => r.getD j Cell.na)⟩ : Column))) j
      = (rs.get ⟨i, hi⟩).getD j Cell.na := by
    intro j
    show (rs.map (fun r => r.getD j Cell.na)).getD i Cell.na = _
    rw [List.getD_eq_getElem?_getD, List.getElem?_map]
    have : rs[i]? = some (rs.get ⟨i, hi⟩) := by
      rw [List.getElem?_eq_some_iff]
      exact ⟨hi, rfl⟩
    rw [this]
    rfl
  calc (List.range names.length).map _
      = (List.range names.length).map (fun j => (rs.get ⟨i, hi⟩).getD j Cell.na) :=
        List.map_congr_left (fun j _ => hcell j)
    _ = rs.get ⟨i, hi⟩ := by
        rw [← hlen (rs.get ⟨i, hi⟩) (rs.get_mem _ _)]
        exact map_range_getD _ _

theorem rows_remove_duplicates (t : Table) :
    (remove_duplicates t).1.rows = dedupKeepFirst t.rows := by
  by_cases hc : t.cols = []
  · have h0 : t.rows = [] := by simp [Table.rows, Table.nrows, hc]
    simp [remove_duplicates, h0, dedupKeepFirst, dedupAux, Table.fromRows,
      Table.names, hc, Table.rows, Table.nrows]
  · apply rows_fromRows
    · simp [Table.names, hc]
    · intro r hr
      have := row_mem_length t r (mem_dedupKeepFirst.mp hr)
      simp [Table.names, this]

/-! ## Claim theorems -/

/-- Claim C1: `remove_duplicates` returns the table of rows with later exact
duplicates dropped together with the removal count: the count equals input
row count minus output row count, the output rows are pairwise distinct,
they form a subsequence of the input rows (order preserved), every input
row still occurs, and kept rows are ordered by the position of each row
value's first occurrence in the input (so the first occurrence of each
group is the one kept). -/
theorem remove_duplicates_spec (t : Table) :
    (remove_duplicates t).2 = t.rows.length - (remove_duplicates t).1.rows.length
    ∧ (remove_duplicates t).1.rows.Nodup
    ∧ (remove_duplicates t).1.rows.Sublist t.rows
    ∧ (∀ r, r ∈ t.rows ↔ r ∈ (remove_duplicates t).1.rows)
    ∧ (∀ r s, r ∈ t.rows → s ∈ t.rows →
        (firstIdx r ((remove_duplicates t).1.rows) ≤
            firstIdx s ((remove_duplicates t).1.rows) ↔
          firstIdx r t.rows ≤ firstIdx s t.rows)) := by
  have hd := rows_remove_duplicates t
  refine ⟨?_, ?_, ?_, ?_, ?_⟩
  · rw [hd]; rfl
  · rw [hd]; exact dedupKeepFirst_nodup _
  · rw [hd]; exact dedupKeepFirst_sublist _
  · intro r; rw [hd, mem_dedupKeepFirst]
  · intro r s hr hs; rw [hd]; exact firstIdx_dedupKeepFirst _ r s hr hs

/-- A one-column table with a duplicated row, for the C1 witness. -/
def dupTable : Table := ⟨[⟨"A", [.str "x", .str "y", .str "x"]⟩]⟩

/-- Claim C1 witness: the first-occurrence ordering conjunct at a concrete table
with a duplicate, hypotheses discharged by evaluation. -/
theorem remove_duplicates_spec_witness :
    firstIdx [Cell.str "x"] ((remove_duplicates dupTable).1.rows) ≤
        firstIdx [Cell.str "y"] ((remove_duplicates dupTable).1.rows) ↔
      firstIdx [Cell.str "x"] dupTable.rows ≤ firstIdx [Cell.str "y"] dupTable.rows :=
  (remove_duplicates_spec dupTable).2.2.2.2 [Cell.str "x"] [Cell.str "y"]
    (by decide) (by decide)

/-- Claim C5: called with an empty file list, `process_and_report` raises
`ValueError("No files provided.")` before any I/O: no directory is
created, no file is read (no events), and nothing is written. -/
theorem empty_input_spec (load : String → Option Table) (rn tm : String) :
    process_and_report load rn tm [] =
      ⟨[], [], [], [], [], .error "No files provided."⟩ := rfl

/-- Claim C4: a non-empty file list none of whose entries loads makes
`process_and_report` raise `ValueError`-class "No readable data found in
the provided files." instead of returning a bundle, and it writes no
output files. -/
theorem no_readable_data_spec (load : String → Option Table) (rn tm : String)
    (files : List String) (h1 : files ≠ []) (h2 : ∀ f ∈ files, load f = none) :
    (process_and_report load rn tm files).result =
        .error "No readable data found in the provided files."
    ∧ (process_and_report load rn tm files).excels = []
    ∧ (process_and_report load rn tm files).charts = []
    ∧ (process_and_report load rn tm files).pdfs = [] := by
  have hemp : files.isEmpty = false := by
    cases files with
    | nil => exact absurd rfl h1
    | cons a l => rfl
  have hdfs : files.filterMap (fun f => (load f).map (tagTable f)) = [] :=
    List.filterMap_eq_nil_iff.mpr (fun f hf => by rw [h2 f hf]; rfl)
  have hm : merge_and_tag load files = (⟨[]⟩, []) := by
    rw [merge_and_tag]
    simp only [hdfs]
    rfl
  simp only [process_and_report, hemp, Bool.false_eq_true, if_false, hm]
  simp [Table.isEmpty]

/-- Claim C4 witness: one unreadable file. -/
theorem no_readable_data_spec_witness :
    (process_and_report (fun _ => none) "r" "t" ["x.csv"]).result =
        RunResult.error "No readable data found in the provided files."
    ∧ (process_and_report (fun _ => none) "r" "t" ["x.csv"]).excels = []
    ∧ (process_and_report (fun _ => none) "r" "t" ["x.csv"]).charts = []
    ∧ (process_and_report (fun _ => none) "r" "t" ["x.csv"]).pdfs = [] :=
  no_readable_data_spec (fun _ => none) "r" "t" ["x.csv"] (by decide)
    (fun _ _ => rfl)

/-- Claim C8: whenever a run succeeds, the merged workbook and the cleaned
workbook are written with the same table — the cleaned, deduplicated one. -/
theorem identical_outputs_spec (load : String → Option Table) (rn tm : String)
    (files : List String) (b : RunBundle)
    (h : (process_and_report load rn tm files).result = .ok b) :
    ∃ tbl : Table,
      (process_and_report load rn tm files).excels =
        [("merged_output_" ++ tm ++ ".xlsx", tbl),
         ("cleaned_output_" ++ tm ++ ".xlsx", tbl)] := by
  by_cases hf : files.isEmpty
  · simp [process_and_report, hf] at h
  · by_cases hm : (merge_and_tag load files).1.isEmpty
    · simp [process_and_report, hf, hm] at h
    · exact ⟨(remove_duplicates (clean_df (merge_and_tag load files).1)).1,
        by simp [process_and_report, hf, hm]⟩

/-- Claim C8 witness: the scenario run writes the same table twice. -/
theorem identical_outputs_spec_witness :
    ∃ tbl : Table,
      (process_and_report scenarioLoad "r" "t" ["a.csv", "b.csv"]).excels =
        [("merged_output_" ++ "t" ++ ".xlsx", tbl),
         ("cleaned_output_" ++ "t" ++ ".xlsx", tbl)] :=
  identical_outputs_spec scenarioLoad "r" "t" ["a.csv", "b.csv"]
    ⟨4, 0, ["a.csv", "b.csv"]⟩ (by decide)

/-- Claim C9: `load_file` dispatches purely on the case-insensitive extension —
any path ending in `.csv` in any letter case goes to the delimited-text
parser, any other path goes to the spreadsheet parser — and it returns the
chosen parser's outcome unchanged, so a parse failure propagates to the
caller. -/
theorem load_file_dispatch_spec (rc re : String → Except String Table) :
    (∀ p : String, ∀ pre post : List Char,
        p.data = pre ++ post → post.map Char.toLower = ".csv".data →
        load_file rc re p = rc p)
    ∧ (∀ p : String, endsWithCsv (pyLower p) = false → load_file rc re p = re p)
    ∧ (∀ p : String, load_file rc re p = rc p ∨ load_file rc re p = re p) := by
  refine ⟨?_, ?_, ?_⟩
  · intro p pre post h1 h2
    have hdata : (pyLower p).data = pre.map Char.toLower ++ ".csv".data := by
      simp [pyLower, h1, List.map_append, h2]
    have hcsv : endsWithCsv (pyLower p) = true := by
      unfold endsWithCsv
      rw [hdata, List.length_append]
      have h4 : (".csv".data).length = 4 := rfl
      rw [h4, Nat.add_sub_cancel, List.drop_left]
      simp
    rw [load_file, hcsv]
    simp
  · intro p h
    rw [load_file, h]
    simp
  · intro p
    rw [load_file]
    by_cases h : endsWithCsv (pyLower p) = true
    · rw [h]; simp
    · simp only [Bool.not_eq_true] at h
      rw [h]; simp

/-- Claim C9 witness: a mixed-case `.CsV` path goes to the CSV parser (whose
failure comes back unchanged), and an `.xlsx` path goes to the spreadsheet
parser. -/
theorem load_file_dispatch_spec_witness :
    load_file (fun _ => Except.error "csv parse failure")
        (fun _ => Except.ok (⟨[]⟩ : Table)) "DATA.CsV" =
      Except.error "csv parse failure"
    ∧ load_file (fun _ => Except.error "csv parse failure")
        (fun _ => Except.ok (⟨[]⟩ : Table)) "book.xlsx" =
      Except.ok (⟨[]⟩ : Table) := by
  have h := load_file_dispatch_spec (fun _ => Except.error "csv parse failure")
    (fun _ => Except.ok (⟨[]⟩ : Table))
  exact ⟨h.1 "DATA.CsV" "DATA".data ".CsV".data (by decide) (by decide),
    h.2.1 "book.xlsx" (by decide)⟩

/-! ## Cleaner idempotence lemmas (C6) -/

theorem cleanObjectCell_idem (v : Cell) :
    cleanObjectCell (cleanObjectCell v) = cleanObjectCell v := by
  show Cell.str (pyStrip (cellAstypeStr (fillnaEmptyText (cleanObjectCell v)))) = _
  rw [cleanObjectCell]
  show Cell.str (pyStrip (cellAstypeStr (Cell.str _))) = _
  rw [cellAstypeStr, pyStrip_idem]

theorem numericClean_idem (v : Cell) :
    fillnaZero (toNumericCoerce (fillnaZero (toNumericCoerce v))) =
      fillnaZero (toNumericCoerce v) := by
  cases v with
  | str s =>
    simp only [toNumericCoerce]
    cases s.toNat? with
    | none => rfl
    | some n => rfl
  | num q => rfl
  | na => rfl

theorem numericClean_notStr (v : Cell) :
    (fillnaZero (toNumericCoerce v)).isStr = false := by
  cases v with
  | str s =>
    simp only [toNumericCoerce]
    cases s.toNat? with
    | none => rfl
    | some n => rfl
  | num q => rfl
  | na => rfl

theorem isObjectValues_map_cleanObjectCell (vs : List Cell) :
    isObjectValues (vs.map cleanObjectCell) = true := by
  cases vs with
  | nil => rfl
  | cons x xs =>
    simp [isObjectValues, isNumericValues, cleanObjectCell, Cell.isStr]

theorem cleanValues_idem (vs : List Cell) :
    cleanValues (cleanValues vs) = cleanValues vs := by
  by_cases h1 : isObjectValues vs = true
  · have hv : cleanValues vs = vs.map cleanObjectCell := by
      rw [cleanValues, if_pos h1]
    rw [hv, cleanValues, if_pos (isObjectValues_map_cleanObjectCell vs),
      List.map_map]
    exact List.map_congr_left (fun a _ => cleanObjectCell_idem a)
  · have h1' : isNumericValues vs = true := by
      simpa [isObjectValues] using h1
    have h1f : isObjectValues vs = false := by
      simp [isObjectValues, h1']
    have hne : vs ≠ [] := by
      intro hv
      rw [hv] at h1'
      simp [isNumericValues] at h1'
    have hnum : isNumericValues (vs.map (fun v => fillnaZero (toNumericCoerce v)))
        = true := by
      rw [isNumericValues, Bool.and_eq_true]
      constructor
      · cases vs with
        | nil => exact absurd rfl hne
        | cons a l => rfl
      · rw [List.all_eq_true]
        intro c hc
        obtain ⟨a, _, rfl⟩ := List.mem_map.mp hc
        simp [numericClean_notStr]
    have hobj : isObjectValues (vs.map (fun v => fillnaZero (toNumericCoerce v)))
        = false := by
      simp [isObjectValues, hnum]
    have hv : cleanValues vs = vs.map (fun v => fillnaZero (toNumericCoerce v)) := by
      rw [cleanValues, if_neg (by simp [h1f]), if_pos h1']
    rw [hv, cleanValues, if_neg (by simp [hobj]), if_pos hnum, List.map_map]
    exact List.map_congr_left (fun a _ => numericClean_idem a)

theorem cleanColumn_idem (c : Column) : cleanColumn (cleanColumn c) = cleanColumn c := by
  simp [cleanColumn, cleanValues_idem]

/-- Claim C6: cleaning is idempotent — `clean_df` applied to an already-cleaned
table changes nothing: every column keeps exactly the values the first
pass produced. -/
theorem clean_df_idempotent (t : Table) : clean_df (clean_df t) = clean_df t := by
  show (⟨(t.cols.map cleanColumn).map cleanColumn⟩ : Table) = ⟨t.cols.map cleanColumn⟩
  rw [List.map_map]
  exact congrArg Table.mk (List.map_congr_left (fun c _ => cleanColumn_idem c))

/-! ## Summary of an all-empty-text column (C7) -/

theorem dedupAux_replicate_mem {α : Type} [DecidableEq α] (seen : List α) (a : α)
    (h : a ∈ seen) (k : Nat) : dedupAux seen (List.replicate k a) = [] := by
  induction k with
  | zero => rfl
  | succ k ih =>
    rw [List.replicate_succ]
    simp only [dedupAux, if_pos h]
    exact ih

theorem dedupKeepFirst_replicate {α : Type} [DecidableEq α] (n : Nat) (a : α)
    (h : n ≠ 0) : dedupKeepFirst (List.replicate n a) = [a] := by
  cases n with
  | zero => exact absurd rfl h
  | succ k =>
    rw [List.replicate_succ, dedupKeepFirst]
    simp only [dedupAux, List.not_mem_nil, if_neg (List.not_mem_nil a)]
    rw [dedupAux_replicate_mem [a] a (List.mem_singleton.mpr rfl) k]
    simp

theorem modeMin_replicate (n : Nat) (a : String) (h : n ≠ 0) :
    modeMin (List.replicate n a) = a := by
  rw [modeMin, dedupKeepFirst_replicate n a h]
  simp [List.count_replicate, Nat.zero_max]

theorem summarizeColumn_empty_text (name : String) (vs : List Cell)
    (hne : vs ≠ []) (hall : ∀ v ∈ vs, v = .str "") :
    summarizeColumn ⟨name, vs⟩ = .text vs.length 1 "" := by
  have hnotnum : isNumericValues vs = false := by
    cases vs with
    | nil => exact absurd rfl hne
    | cons x xs =>
      have hx : x = .str "" := hall x (List.mem_cons_self _ _)
      subst hx
      simp [isNumericValues, Cell.isStr]
  have hss : vs.map cellAstypeStr = List.replicate vs.length "" := by
    rw [List.eq_replicate_iff]
    refine ⟨List.length_map _ _, fun b hb => ?_⟩
    obtain ⟨v, hv, rfl⟩ := List.mem_map.mp hb
    rw [hall v hv]
    rfl
  have hlen : vs.length ≠ 0 := by
    cases vs with
    | nil => exact absurd rfl hne
    | cons x xs => simp
  simp only [summarizeColumn, hnotnum, Bool.false_eq_true, if_false, hss,
    dedupKeepFirst_replicate vs.length "" hlen, modeMin_replicate vs.length "" hlen,
    List.length_replicate, List.length_cons, List.length_nil]

/-- Claim C7 (amended): a non-empty, non-numeric column all of whose values are
empty text summarizes, without raising, to `{type: text, count: n,
unique: 1, most_common: ""}` where `n` is the row count — not to
`{count: 0, unique: 0}`: the summarizer stringifies before it counts, so
empty strings are counted and kept as one distinct value. -/
theorem empty_text_summary_spec (t : Table) (name : String) (vs : List Cell)
    (hmem : (⟨name, vs⟩ : Column) ∈ t.cols) (hne : vs ≠ [])
    (hall : ∀ v ∈ vs, v = .str "") :
    (name, ColSummary.text vs.length 1 "") ∈ generate_column_summary t :=
  List.mem_map.mpr ⟨⟨name, vs⟩, hmem,
    by rw [summarizeColumn_empty_text name vs hne hall]⟩

/-- A one-column table whose only value is empty text. -/
def emptyTextTable : Table := ⟨[⟨"A", [.str ""]⟩]⟩

/-- Claim C7 counterexample: on a one-row column holding the empty string, the
summary is `{type: text, count: 1, unique: 1, most_common: ""}`, not the
claimed `{count: 0, unique: 0, most_common: ""}`. -/
theorem empty_text_summary_counterexample :
    generate_column_summary emptyTextTable = [("A", ColSummary.text 1 1 "")]
    ∧ generate_column_summary emptyTextTable ≠ [("A", ColSummary.text 0 0 "")] := by
  constructor
  · decide
  · decide

/-- Claim C7 witness. -/
theorem empty_text_summary_spec_witness :
    ("A", ColSummary.text 1 1 "") ∈ generate_column_summary emptyTextTable :=
  empty_text_summary_spec emptyTextTable "A" [Cell.str ""] (by decide)
    (by decide) (fun v hv => List.mem_singleton.mp hv)

/-! ## The two-CSV scenario, settled (C2) -/

theorem scenarioFinal_cols : scenarioFinal.1.cols =
    [⟨"Name", [.str "Al", .str "Bo", .str "Al", .str "Cy"]⟩,
     ⟨"Score", [.num 10, .num 20, .num 10, .num 30]⟩,
     ⟨"Source_File", [.str "a.csv", .str "a.csv", .str "b.csv", .str "b.csv"]⟩] := by
  decide

theorem scenarioScoreSummary :
    summarizeColumn ⟨"Score", [.num 10, .num 20, .num 10, .num 30]⟩ =
      .numeric 4 70 (35 / 2) 10 30 := by
  have hnum : isNumericValues [Cell.num 10, Cell.num 20, Cell.num 10, Cell.num 30]
      = true := by decide
  simp only [summarizeColumn, hnum, if_true, List.map_cons, List.map_nil,
    cellToNumFilled, toNumericCoerce, listMinR, listMaxR, List.foldl_cons,
    List.foldl_nil]
  norm_num [min_def, max_def, List.sum_cons, List.sum_nil]

/-- Claim C2 (amended): in the two-CSV scenario, merging tags the 4 rows with
`Source_File` values `a.csv`/`b.csv` per originating file — which makes
the repeated `["Al",10]` row distinct from its first occurrence — so
deduplication removes 0 rows (not 1), the final table has 4 rows (not 3),
and the summarizer reports `Score` as numeric with count 4, sum 70, mean
17.5, min 10, max 30. -/
theorem merge_dedup_scenario_amended :
    scenarioMerged.1.nrows = 4
    ∧ scenarioMerged.1.getCol "Source_File" =
        some ⟨"Source_File", [.str "a.csv", .str "a.csv", .str "b.csv", .str "b.csv"]⟩
    ∧ scenarioMerged.2 = ["a.csv", "b.csv"]
    ∧ scenarioFinal.2 = 0
    ∧ scenarioFinal.1.nrows = 4
    ∧ ("Score", ColSummary.numeric 4 70 (35 / 2) 10 30) ∈
        generate_column_summary scenarioFinal.1 := by
  refine ⟨by decide, by decide, by decide, by decide, by decide, ?_⟩
  have hcol : (⟨"Score", [Cell.num 10, Cell.num 20, Cell.num 10, Cell.num 30]⟩ :
      Column) ∈ scenarioFinal.1.cols := by decide
  exact List.mem_map.mpr ⟨_, hcol, by rw [scenarioScoreSummary]⟩

/-- Claim C2 counterexample: in that same scenario the claim's numbers are wrong —
deduplication does not remove 1 row, the final table does not have 3 rows,
and the summarizer does not report `Score` with count 3 / sum 60 / mean 20. -/
theorem merge_dedup_scenario_counterexample :
    scenarioFinal.2 ≠ 1
    ∧ scenarioFinal.1.nrows ≠ 3
    ∧ ("Score", ColSummary.numeric 3 60 20 10 30) ∉
        generate_column_summary scenarioFinal.1 := by
  refine ⟨by decide, by decide, ?_⟩
  intro hmem
  obtain ⟨c, hc, heq⟩ := List.mem_map.mp hmem
  rw [scenarioFinal_cols] at hc
  simp only [List.mem_cons, List.not_mem_nil, or_false] at hc
  rcases hc with rfl | rfl | rfl
  · exact absurd (congrArg Prod.fst heq) (by decide)
  · rw [Prod.mk.injEq, scenarioScoreSummary] at heq
    have h4 : (4 : Nat) = 3 := by
      have := heq.2
      simp only [ColSummary.numeric.injEq] at this
      exact this.1
    omega
  · exact absurd (congrArg Prod.fst heq) (by decide)

/-! ## Source_File tagging (C10) -/

theorem find?_name_replace (cols : List Column) (n : String) (k : Nat) (v : Cell)
    (h : n ∈ cols.map (·.name)) :
    (cols.map (fun c =>
        if c.name = n then { c with values := List.replicate k v } else c)).find?
      (fun c => decide (c.name = n)) = some ⟨n, List.replicate k v⟩ := by
  induction cols with
  | nil => simp at h
  | cons c cs ih =>
    by_cases hc : c.name = n
    · have hhead : (if c.name = n then { c with values := List.replicate k v }
          else c) = (⟨n, List.replicate k v⟩ : Column) := by
        rw [if_pos hc]
        simp [hc]
      rw [List.map_cons, List.find?_cons, hhead]
      simp
    · rw [List.map_cons, List.find?_cons, if_neg hc, decide_eq_false hc]
      refine ih ?_
      rw [List.map_cons] at h
      rcases List.mem_cons.mp h with h1 | h1
      · exact absurd h1.symm hc
      · exact h1

theorem getCol_setColumnConst (t : Table) (n : String) (v : Cell) :
    (setColumnConst t n v).getCol n = some ⟨n, List.replicate t.nrows v⟩ := by
  rw [setColumnConst]
  by_cases h : n ∈ t.names
  · rw [if_pos h, Table.getCol]
    exact find?_name_replace t.cols n t.nrows v h
  · rw [if_neg h, Table.getCol]
    show List.find? (fun c : Column => decide (c.name = n))
        (t.cols ++ [(⟨n, List.replicate t.nrows v⟩ : Column)])
      = some (⟨n, List.replicate t.nrows v⟩ : Column)
    rw [List.find?_append]
    have h1 : t.cols.find? (fun c => decide (c.name = n)) = none := by
      rw [List.find?_eq_none]
      intro c hc hdec
      exact h (List.mem_map.mpr ⟨c, hc, of_decide_eq_true hdec⟩)
    rw [h1]
    simp

theorem mem_names_setColumnConst (t : Table) (n : String) (v : Cell) :
    n ∈ (setColumnConst t n v).names := by
  rw [setColumnConst]
  by_cases h : n ∈ t.names
  · rw [if_pos h]
    show n ∈ (t.cols.map (fun c =>
        if c.name = n then { c with values := List.replicate t.nrows v } else c)).map
      (fun c => c.name)
    rw [List.map_map]
    have heq : ((fun c : Column => c.name) ∘ (fun c =>
        if c.name = n then { c with values := List.replicate t.nrows v } else c))
        = fun c : Column => c.name := by
      funext c
      by_cases hc : c.name = n <;> simp [hc]
    rw [heq]
    exact h
  · rw [if_neg h]
    show n ∈ (t.cols ++ [(⟨n, List.replicate t.nrows v⟩ : Column)]).map
      (fun c : Column => c.name)
    simp

theorem find?_name_self {l : List String} {n : String} (h : n ∈ l) :
    l.find? (fun m => decide (m = n)) = some n := by
  induction l with
  | nil => simp at h
  | cons a l ih =>
    by_cases ha : a = n
    · subst ha
      simp [List.find?_cons]
    · simp only [List.find?_cons, decide_eq_false ha]
      refine ih ?_
      rcases List.mem_cons.mp h with h1 | h1
      · exact absurd h1.symm ha
      · exact h1

theorem getCol_concatTables (ts : List Table) (n : String)
    (hmem : ∃ t ∈ ts, n ∈ t.names) :
    (concatTables ts).getCol n = some ⟨n, ts.flatMap (fun t =>
      match t.getCol n with
      | some c => c.values
      | none => List.replicate t.nrows Cell.na)⟩ := by
  obtain ⟨t0, ht0, hn0⟩ := hmem
  have hn : n ∈ dedupKeepFirst (ts.flatMap Table.names) :=
    mem_dedupKeepFirst.mpr (List.mem_flatMap.mpr ⟨t0, ht0, hn0⟩)
  rw [concatTables, Table.getCol]
  show (List.find? _ (List.map _ _)) = _
  rw [List.find?_map]
  have hcomp : ((fun c : Column => decide (c.name = n)) ∘ (fun m =>
      (⟨m, ts.flatMap (fun t =>
        match t.getCol m with
        | some c => c.values
        | none => List.replicate t.nrows Cell.na)⟩ : Column)))
      = fun m => decide (m = n) := rfl
  rw [hcomp, find?_name_self hn]
  rfl

theorem flatMap_tagged (load : String → Option Table) (files : List String) :
    (files.filterMap (fun f => (load f).map (tagTable f))).flatMap
      (fun t => match t.getCol "Source_File" with
        | some c => c.values
        | none => List.replicate t.nrows Cell.na)
    = files.flatMap (fun f =>
        match load f with
        | some df => List.replicate df.nrows (Cell.str (basename f))
        | none => []) := by
  induction files with
  | nil => rfl
  | cons f fs ih =>
    cases hl : load f with
    | none => simp [List.filterMap_cons, hl, ih]
    | some df =>
      simp [List.filterMap_cons, hl, ih, tagTable, getCol_setColumnConst]

/-- Claim C10: with at least one readable file, the merged table's `Source_File`
column holds, file by file in order, the base name of the file each row
came from (`df['Source_File'] = basename(f)` overwrites any column of that
name already present in the input); consequently every `Source_File` value
is the base name of one of the successfully read files that
`merge_and_tag` also returns. -/
theorem source_file_tagging_spec (load : String → Option Table)
    (files : List String) (h : ∃ f ∈ files, (load f).isSome) :
    (merge_and_tag load files).1.getCol "Source_File" =
      some ⟨"Source_File", files.flatMap (fun f =>
        match load f with
        | some df => List.replicate df.nrows (Cell.str (basename f))
        | none => [])⟩
    ∧ ∀ col, (merge_and_tag load files).1.getCol "Source_File" = some col →
        ∀ c ∈ col.values, ∃ bn ∈ (merge_and_tag load files).2, c = Cell.str bn := by
  obtain ⟨f0, hf0, hs0⟩ := h
  obtain ⟨df0, hdf0⟩ := Option.isSome_iff_exists.mp hs0
  have hmem0 : tagTable f0 df0 ∈
      files.filterMap (fun f => (load f).map (tagTable f)) :=
    List.mem_filterMap.mpr ⟨f0, hf0, by rw [hdf0]; rfl⟩
  have hne : (files.filterMap (fun f => (load f).map (tagTable f))).isEmpty
      = false := by
    cases hd : files.filterMap (fun f => (load f).map (tagTable f)) with
    | nil => rw [hd] at hmem0; simp at hmem0
    | cons a l => rfl
  have h1 : (merge_and_tag load files).1 =
      concatTables (files.filterMap (fun f => (load f).map (tagTable f))) := by
    rw [merge_and_tag]
    simp only [hne, Bool.false_eq_true, if_false]
  have h2 : (merge_and_tag load files).2 =
      files.filterMap (fun f => (load f).map (fun _ => basename f)) := by
    rw [merge_and_tag]
    simp only [hne, Bool.false_eq_true, if_false]
  have hgc := getCol_concatTables
    (files.filterMap (fun f => (load f).map (tagTable f))) "Source_File"
    ⟨tagTable f0 df0, hmem0, mem_names_setColumnConst df0 "Source_File" _⟩
  have hcol : (merge_and_tag load files).1.getCol "Source_File" =
      some ⟨"Source_File", files.flatMap (fun f =>
        match load f with
        | some df => List.replicate df.nrows (Cell.str (basename f))
        | none => [])⟩ := by
    rw [h1, hgc, flatMap_tagged]
  refine ⟨hcol, ?_⟩
  intro col hcolEq c hc
  rw [hcol] at hcolEq
  obtain rfl := Option.some.inj hcolEq
  obtain ⟨f, hf, hcf⟩ := List.mem_flatMap.mp hc
  cases hl : load f with
  | none => rw [hl] at hcf; simp at hcf
  | some df =>
    rw [hl] at hcf
    have := (List.mem_replicate.mp hcf).2
    refine ⟨basename f, ?_, this⟩
    rw [h2]
    exact List.mem_filterMap.mpr ⟨f, hf, by rw [hl]; rfl⟩

/-- Claim C10 witness: the scenario's merged table carries the expected
Source_File column. -/
theorem source_file_tagging_spec_witness :
    (merge_and_tag scenarioLoad ["a.csv", "b.csv"]).1.getCol "Source_File" =
      some ⟨"Source_File", ["a.csv", "b.csv"].flatMap (fun f =>
        match scenarioLoad f with
        | some df => List.replicate df.nrows (Cell.str (basename f))
        | none => [])⟩ :=
  (source_file_tagging_spec scenarioLoad ["a.csv", "b.csv"]
    ⟨"a.csv", by decide, by decide⟩).1

/-! ## Progress events (C3) -/

theorem mem_of_getLast?_eq {α : Type} {l : List α} {a : α}
    (h : l.getLast? = some a) : a ∈ l := by
  obtain ⟨ys, rfl⟩ := List.getLast?_eq_some_iff.mp h
  simp

theorem mergeProgress_le (n : Nat) : ∀ e ∈ mergeProgress n, e.1 ≤ 100 := by
  intro e he
  simp only [mergeProgress, List.mem_map] at he
  obtain ⟨i, hi, rfl⟩ := he
  rw [List.mem_range'_1] at hi
  have hpos : 0 < max 1 n := Nat.lt_of_lt_of_le Nat.zero_lt_one (Nat.le_max_left 1 n)
  have h1 : i ≤ max 1 n := le_trans (by omega) (Nat.le_max_right 1 n)
  calc i * 100 / max 1 n ≤ max 1 n * 100 / max 1 n :=
        Nat.div_le_div_right (Nat.mul_le_mul_right 100 h1)
    _ = 100 := by rw [Nat.mul_div_cancel_left _ hpos]

theorem cleanProgress_le (n : Nat) : ∀ e ∈ cleanProgress n, e.1 ≤ 100 := by
  intro e he
  simp only [cleanProgress, List.mem_map] at he
  obtain ⟨i, hi, rfl⟩ := he
  rw [List.mem_range'_1] at hi
  have hpos : 0 < max 1 n := Nat.lt_of_lt_of_le Nat.zero_lt_one (Nat.le_max_left 1 n)
  have h1 : i ≤ max 1 n := le_trans (by omega) (Nat.le_max_right 1 n)
  calc i * 100 / max 1 n ≤ max 1 n * 100 / max 1 n :=
        Nat.div_le_div_right (Nat.mul_le_mul_right 100 h1)
    _ = 100 := by rw [Nat.mul_div_cancel_left _ hpos]

theorem mergeEvents_bounds (n : Nat) : ∀ e ∈ mergeEvents n, 5 ≤ e.1 ∧ e.1 ≤ 15 := by
  intro e he
  simp only [mergeEvents, List.mem_map] at he
  obtain ⟨e', he', rfl⟩ := he
  have h100 := mergeProgress_le n e' he'
  have h10 : e'.1 / 10 ≤ 100 / 10 := Nat.div_le_div_right h100
  constructor
  · exact Nat.le_add_right 5 _
  · omega

theorem cleanEvents_bounds (n : Nat) : ∀ e ∈ cleanEvents n, 30 ≤ e.1 ∧ e.1 ≤ 50 := by
  intro e he
  simp only [cleanEvents, List.mem_map] at he
  obtain ⟨e', he', rfl⟩ := he
  have h100 := cleanProgress_le n e' he'
  have h5 : e'.1 / 5 ≤ 100 / 5 := Nat.div_le_div_right h100
  constructor
  · exact Nat.le_add_right 30 _
  · omega

theorem chain'_fst_map_range' (s n : Nat) (g : Nat → Nat) (msg : Nat → String)
    (mono : ∀ i j, i ≤ j → g i ≤ g j) :
    ((List.range' s n).map (fun i => (g i, msg i))).Chain'
      (fun a b => a.1 ≤ b.1) := by
  apply List.Pairwise.chain'
  rw [List.pairwise_map, List.range'_eq_map_range, List.pairwise_map]
  exact (List.pairwise_lt_range n).imp
    (fun h => mono _ _ (Nat.add_le_add_left (Nat.le_of_lt h) s))

theorem mergeEvents_chain' (n : Nat) :
    (mergeEvents n).Chain' (fun a b => a.1 ≤ b.1) := by
  rw [mergeEvents, mergeProgress, List.map_map]
  exact chain'_fst_map_range' 1 n
    (fun i => 5 + i * 100 / max 1 n / 10)
    (fun i => "Loaded " ++ toString i ++ "/" ++ toString (max 1 n) ++ " files")
    (fun i j hij => by
      have h1 : i * 100 / max 1 n ≤ j * 100 / max 1 n :=
        Nat.div_le_div_right (Nat.mul_le_mul_right 100 hij)
      have h2 : i * 100 / max 1 n / 10 ≤ j * 100 / max 1 n / 10 :=
        Nat.div_le_div_right h1
      show 5 + i * 100 / max 1 n / 10 ≤ 5 + j * 100 / max 1 n / 10
      omega)

theorem cleanEvents_chain' (n : Nat) :
    (cleanEvents n).Chain' (fun a b => a.1 ≤ b.1) := by
  rw [cleanEvents, cleanProgress, List.map_map]
  exact chain'_fst_map_range' 1 n
    (fun i => 30 + i * 100 / max 1 n / 5)
    (fun i => "Cleaning columns: " ++ toString i ++ "/" ++ toString (max 1 n))
    (fun i j hij => by
      have h1 : i * 100 / max 1 n ≤ j * 100 / max 1 n :=
        Nat.div_le_div_right (Nat.mul_le_mul_right 100 hij)
      have h2 : i * 100 / max 1 n / 5 ≤ j * 100 / max 1 n / 5 :=
        Nat.div_le_div_right h1
      show 30 + i * 100 / max 1 n / 5 ≤ 30 + j * 100 / max 1 n / 5
      omega)

theorem chain'_le_append_of_bounds {l₁ l₂ : List (Nat × String)} (m : Nat)
    (h₁ : l₁.Chain' (fun a b => a.1 ≤ b.1))
    (h₂ : l₂.Chain' (fun a b => a.1 ≤ b.1))
    (hub : ∀ a ∈ l₁, a.1 ≤ m) (hlb : ∀ b ∈ l₂, m ≤ b.1) :
    (l₁ ++ l₂).Chain' (fun a b => a.1 ≤ b.1) := by
  rw [List.chain'_append]
  refine ⟨h₁, h₂, ?_⟩
  intro x hx y hy
  have hx' : x ∈ l₁ := mem_of_getLast?_eq (Option.mem_def.mp hx)
  have hy' : y ∈ l₂ := List.mem_of_mem_head? hy
  exact le_trans (hub x hx') (hlb y hy')

theorem successEvents_chain' (n k r : Nat) (c : Option String) :
    (successEvents n k r c).Chain' (fun a b => a.1 ≤ b.1) := by
  have ubA : ∀ a ∈ (5, "Starting: loading files") :: mergeEvents n, a.1 ≤ 15 := by
    intro a ha
    rcases List.mem_cons.mp ha with rfl | h
    · simp
    · exact (mergeEvents_bounds n a h).2
  have hA : ((5, "Starting: loading files") :: mergeEvents n).Chain'
      (fun a b => a.1 ≤ b.1) := by
    rw [List.chain'_cons']
    refine ⟨?_, mergeEvents_chain' n⟩
    intro y hy
    have h5 := (mergeEvents_bounds n y (List.mem_of_mem_head? hy)).1
    show 5 ≤ y.1
    omega
  have lbB1 : ∀ b ∈ [((25 : Nat), "Files loaded; merging complete"),
      (30, "Cleaning data")], 25 ≤ b.1 := by
    intro b hb
    rcases List.mem_cons.mp hb with rfl | hb
    · simp
    · rw [List.mem_singleton.mp hb]; simp
  have hB1 : ([((25 : Nat), "Files loaded; merging complete"),
      (30, "Cleaning data")]).Chain' (fun a b => a.1 ≤ b.1) := by
    simp [List.chain'_cons, List.chain'_singleton]
  have h1 := chain'_le_append_of_bounds 25 hA hB1
    (fun a ha => by have := ubA a ha; omega) lbB1
  have ub1 : ∀ a ∈ ((5, "Starting: loading files") :: mergeEvents n)
      ++ [((25 : Nat), "Files loaded; merging complete"), (30, "Cleaning data")],
      a.1 ≤ 30 := by
    intro a ha
    rcases List.mem_append.mp ha with h | h
    · have := ubA a h; omega
    · rcases List.mem_cons.mp h with rfl | h
      · simp
      · rw [List.mem_singleton.mp h]
  have h2 := chain'_le_append_of_bounds 30 h1 (cleanEvents_chain' k) ub1
    (fun b hb => (cleanEvents_bounds k b hb).1)
  have ub2 : ∀ a ∈ (((5, "Starting: loading files") :: mergeEvents n)
      ++ [((25 : Nat), "Files loaded; merging complete"), (30, "Cleaning data")])
      ++ cleanEvents k, a.1 ≤ 50 := by
    intro a ha
    rcases List.mem_append.mp ha with h | h
    · have := ub1 a h; omega
    · exact (cleanEvents_bounds k a h).2
  have lbB2 : ∀ b ∈ [((55 : Nat), "Cleaning complete"), (60, "Removing duplicates"),
      (70, "Duplicates removed: " ++ toString r), (75, "Saving output files"),
      (80, "Generating summaries"), (85, "Creating chart: summary")],
      55 ≤ b.1 := by
    intro b hb
    simp only [List.mem_cons, List.not_mem_nil, or_false] at hb
    rcases hb with rfl | rfl | rfl | rfl | rfl | rfl <;> simp
  have ubB2 : ∀ b ∈ [((55 : Nat), "Cleaning complete"), (60, "Removing duplicates"),
      (70, "Duplicates removed: " ++ toString r), (75, "Saving output files"),
      (80, "Generating summaries"), (85, "Creating chart: summary")],
      b.1 ≤ 85 := by
    intro b hb
    simp only [List.mem_cons, List.not_mem_nil, or_false] at hb
    rcases hb with rfl | rfl | rfl | rfl | rfl | rfl <;> simp
  have hB2 : ([((55 : Nat), "Cleaning complete"), (60, "Removing duplicates"),
      (70, "Duplicates removed: " ++ toString r), (75, "Saving output files"),
      (80, "Generating summaries"), (85, "Creating chart: summary")]).Chain'
      (fun a b => a.1 ≤ b.1) := by
    simp [List.chain'_cons, List.chain'_singleton]
  have h3 := chain'_le_append_of_bounds 55 h2 hB2
    (fun a ha => by have := ub2 a ha; omega) lbB2
  have hE4 : ((match c with
      | some cn => [((88 : Nat), "Creating chart: top values (" ++ cn ++ ")")]
      | none => []) : List (Nat × String)).Chain' (fun a b => a.1 ≤ b.1) := by
    cases c with
    | none => exact List.chain'_nil
    | some cn => exact List.chain'_singleton _
  have lbE4 : ∀ b ∈ ((match c with
      | some cn => [((88 : Nat), "Creating chart: top values (" ++ cn ++ ")")]
      | none => []) : List (Nat × String)), 88 ≤ b.1 := by
    intro b hb
    cases c with
    | none => simp at hb
    | some cn =>
      rw [List.mem_singleton.mp hb]
  have ub3 : ∀ a ∈ ((((5, "Starting: loading files") :: mergeEvents n)
      ++ [((25 : Nat), "Files loaded; merging complete"), (30, "Cleaning data")])
      ++ cleanEvents k)
      ++ [((55 : Nat), "Cleaning complete"), (60, "Removing duplicates"),
          (70, "Duplicates removed: " ++ toString r), (75, "Saving output files"),
          (80, "Generating summaries"), (85, "Creating chart: summary")],
      a.1 ≤ 85 := by
    intro a ha
    rcases List.mem_append.mp ha with h | h
    · have := ub2 a h; omega
    · exact ubB2 a h
  have h4 := chain'_le_append_of_bounds 85 h3 hE4
    (fun a ha => ub3 a ha) (fun b hb => by have := lbE4 b hb; omega)
  have ub4 : ∀ a ∈ (((((5, "Starting: loading files") :: mergeEvents n)
      ++ [((25 : Nat), "Files loaded; merging complete"), (30, "Cleaning data")])
      ++ cleanEvents k)
      ++ [((55 : Nat), "Cleaning complete"), (60, "Removing duplicates"),
          (70, "Duplicates removed: " ++ toString r), (75, "Saving output files"),
          (80, "Generating summaries"), (85, "Creating chart: summary")])
      ++ ((match c with
          | some cn => [((88 : Nat), "Creating chart: top values (" ++ cn ++ ")")]
          | none => []) : List (Nat × String)), a.1 ≤ 88 := by
    intro a ha
    rcases List.mem_append.mp ha with h | h
    · have := ub3 a h; omega
    · cases c with
      | none => simp at h
      | some cn =>
        rw [List.mem_singleton.mp h]
  have hT : ([((92 : Nat), "Building PDF report"), (99, "Finalizing")]).Chain'
      (fun a b => a.1 ≤ b.1) := by
    simp [List.chain'_cons, List.chain'_singleton]
  have lbT : ∀ b ∈ [((92 : Nat), "Building PDF report"), (99, "Finalizing")],
      92 ≤ b.1 := by
    intro b hb
    rcases List.mem_cons.mp hb with rfl | hb
    · simp
    · rw [List.mem_singleton.mp hb]; simp
  have h5 := chain'_le_append_of_bounds 88 h4 hT
    (fun a ha => ub4 a ha) (fun b hb => by have := lbT b hb; omega)
  exact h5

theorem successEvents_le (n k r : Nat) (c : Option String) :
    ∀ e ∈ successEvents n k r c, e.1 ≤ 99 := by
  intro e he
  rw [successEvents.eq_def] at he
  rcases List.mem_append.mp he with h | h
  · rcases List.mem_append.mp h with h | h
    · rcases List.mem_append.mp h with h | h
      · rcases List.mem_append.mp h with h | h
        · rcases List.mem_append.mp h with h | h
          · rcases List.mem_cons.mp h with rfl | h
            · simp
            · have := (mergeEvents_bounds n e h).2
              omega
          · rcases List.mem_cons.mp h with rfl | h
            · simp
            · rw [List.mem_singleton.mp h]
              simp
        · have := (cleanEvents_bounds k e h).2
          omega
      · simp only [List.mem_cons, List.not_mem_nil, or_false] at h
        rcases h with rfl | rfl | rfl | rfl | rfl | rfl <;> simp
    · cases c with
      | none => simp at h
      | some cn =>
        rw [List.mem_singleton.mp h]
        simp
  · rcases List.mem_cons.mp h with rfl | h
    · simp
    · rw [List.mem_singleton.mp h]

theorem successEvents_getLast (n k r : Nat) (c : Option String) :
    (successEvents n k r c).getLast?.map Prod.fst = some 99 := by
  rw [successEvents.eq_def, List.getLast?_append]
  have hT : ([((92 : Nat), "Building PDF report"), (99, "Finalizing")]).getLast?
      = some (99, "Finalizing") := rfl
  rw [hT]
  rfl

/-- Claim C3 (amended): every run of `process_and_report` emits a progress
sequence that is monotonically non-decreasing with every percent an
integer between 0 and 100 — but `process_and_report` itself never emits a
percent-100 event: every emitted percent is at most 99, and on successful
completion the final event is exactly `(99, "Finalizing")` (on fatal
failure the stream simply stops; the single 100% update the user sees is
issued by the GUI caller directly to the popup, outside the progress
callback). -/
theorem progress_events_spec (load : String → Option Table)
    (rn tm : String) (files : List String) :
    ((process_and_report load rn tm files).events).Chain' (fun a b => a.1 ≤ b.1)
    ∧ (∀ e ∈ (process_and_report load rn tm files).events, e.1 ≤ 99)
    ∧ (∀ e ∈ (process_and_report load rn tm files).events, e.1 ≠ 100)
    ∧ ((∃ b, (process_and_report load rn tm files).result = .ok b) →
        (process_and_report load rn tm files).events.getLast?.map Prod.fst
          = some 99) := by
  by_cases hf : files.isEmpty
  · refine ⟨?_, ?_, ?_, ?_⟩ <;> simp [process_and_report, hf]
  · by_cases hm : (merge_and_tag load files).1.isEmpty
    · have hev : (process_and_report load rn tm files).events =
          (5, "Starting: loading files") :: mergeEvents files.length := by
        simp [process_and_report, hf, hm]
      refine ⟨?_, ?_, ?_, ?_⟩
      · rw [hev, List.chain'_cons']
        refine ⟨?_, mergeEvents_chain' files.length⟩
        intro y hy
        have := (mergeEvents_bounds files.length y (List.mem_of_mem_head? hy)).1
        show 5 ≤ y.1
        omega
      · intro e he
        rw [hev] at he
        rcases List.mem_cons.mp he with rfl | h
        · simp
        · have := (mergeEvents_bounds files.length e h).2
          omega
      · intro e he
        rw [hev] at he
        rcases List.mem_cons.mp he with rfl | h
        · simp
        · have := (mergeEvents_bounds files.length e h).2
          omega
      · rintro ⟨b, hb⟩
        exfalso
        simp [process_and_report, hf, hm] at hb
    · have hev : (process_and_report load rn tm files).events =
          successEvents files.length (merge_and_tag load files).1.cols.length
            (remove_duplicates (clean_df (merge_and_tag load files).1)).2
            (((remove_duplicates (clean_df (merge_and_tag load files).1)).1.cols.filter
              (fun c => !isNumericValues c.values)).head?.map (fun c => c.name)) := by
        simp [process_and_report, hf, hm]
      refine ⟨?_, ?_, ?_, ?_⟩
      · rw [hev]
        exact successEvents_chain' _ _ _ _
      · rw [hev]
        exact successEvents_le _ _ _ _
      · rw [hev]
        intro e he
        have := successEvents_le _ _ _ _ e he
        omega
      · intro _
        rw [hev]
        exact successEvents_getLast _ _ _ _

/-- Claim C3 counterexample: on a concrete successful run the emitted events are
non-empty, contain zero events with percent 100 (so not exactly one), and
the final event's percent is 99, refuting "exactly one percent-100 event
is emitted, as the final event". -/
theorem progress_no_final_100_counterexample :
    (process_and_report scenarioLoad "r" "t" ["a.csv", "b.csv"]).events ≠ []
    ∧ (process_and_report scenarioLoad "r" "t" ["a.csv", "b.csv"]).events.countP
        (fun e => decide (e.1 = 100)) = 0
    ∧ ¬ ((process_and_report scenarioLoad "r" "t" ["a.csv", "b.csv"]).events.countP
        (fun e => decide (e.1 = 100)) = 1)
    ∧ (process_and_report scenarioLoad "r" "t" ["a.csv", "b.csv"]).events.getLast?.map
        Prod.fst = some 99 := by
  refine ⟨?_, ?_, ?_, ?_⟩ <;> decide

/-- Claim C3 witness: the success-path conclusion at a concrete run. -/
theorem progress_events_spec_witness :
    (process_and_report scenarioLoad "r" "t" ["a.csv", "b.csv"]).events.getLast?.map
      Prod.fst = some 99 :=
  (progress_events_spec scenarioLoad "r" "t" ["a.csv", "b.csv"]).2.2.2
    ⟨⟨4, 0, ["a.csv", "b.csv"]⟩, by decide⟩

end ExcelTool
